import Mathlib

/-!
Verification of `recipes/table-optional.py`.

The Python function `table_optional(model, variables, tuples, option)` first runs
a block of `assert` statements validating its inputs, then emits into the CP-SAT
model:
  * one boolean `b[k]` per tuple,
  * booleans `is_assigned[i][j]` for every position `i` and value `j ≤ max_value`,
  * `Add(is_assigned[i][j] == 0).OnlyEnforceIf(option)` for every value `j` that
    appears at position `i` in no tuple,
  * `Add(Sum(is_assigned[i]) == 1).OnlyEnforceIf(option)` for every position `i`,
  * `Add(variables[i] == j).OnlyEnforceIf(is_assigned[i][j])` for every `i`, `j`,
  * `AddBoolAnd([is_assigned[j][t[j]] ...]).OnlyEnforceIf(b[k])` for every tuple,
  * `Add(Sum(b) == 1).OnlyEnforceIf(option)`.

We embed the emitted constraints as a list of syntactic constraints over
references to the model's boolean variables, with a decidable satisfaction
semantics, and the assert block as a pure boolean check.
-/

/-- A reference to one of the boolean variables appearing in the constraints
emitted by `table_optional`: a per-tuple indicator `b[k]`, a per-position
per-value indicator `is_assigned[i][j]`, or the enabling variable `option`. -/
inductive BRef where
  | b (k : Nat)
  | is_assigned (i j : Nat)
  | option
deriving DecidableEq, Repr

/-- The shapes of primitive constraint emitted by `table_optional`:
`Add(x == 0).OnlyEnforceIf(g)`, `Add(Sum(xs) == 1).OnlyEnforceIf(g)`,
`Add(variables[i] == j).OnlyEnforceIf(g)`, and
`AddBoolAnd(xs).OnlyEnforceIf(g)`. -/
inductive CpConstraint where
  | boolEqZeroIf (x : BRef) (g : BRef)
  | sumEqOneIf (xs : List BRef) (g : BRef)
  | varEqIf (i : Nat) (j : Nat) (g : BRef)
  | boolAndIf (xs : List BRef) (g : BRef)
deriving DecidableEq, Repr

/-- An assignment of values to all variables in scope: the integer decision
variables `variables[i]`, the per-tuple indicators `b[k]`, the indicators
`is_assigned[i][j]`, and the enabling variable `option`. -/
structure TOAssign where
  /-- The values of the integer decision variables `variables[i]`. -/
  vars : Nat → Int
  b : Nat → Bool
  is_assigned : Nat → Nat → Bool
  option : Bool

/-- Value of a boolean-variable reference under an assignment. -/
def evalB (a : TOAssign) : BRef → Bool
  | .b k => a.b k
  | .is_assigned i j => a.is_assigned i j
  | .option => a.option

/-- Sum of a list of CP-SAT booleans, each counted as 0 or 1. -/
def boolSum (l : List Bool) : Nat := (l.map (fun x => cond x 1 0)).sum

/-- Truth of one emitted constraint under an assignment.  Each constraint is an
`OnlyEnforceIf`: it holds whenever its guard is false. -/
def holdsB (a : TOAssign) : CpConstraint → Bool
  | .boolEqZeroIf x g => !(evalB a g) || !(evalB a x)
  | .sumEqOneIf xs g => !(evalB a g) || (boolSum (xs.map (evalB a)) == 1)
  | .varEqIf i j g => !(evalB a g) || (a.vars i == (j : Int))
  | .boolAndIf xs g => !(evalB a g) || xs.all (evalB a)

/-- An assignment satisfies a list of emitted constraints when every constraint
in the list holds under it. -/
abbrev Satisfies (a : TOAssign) (cs : List CpConstraint) : Prop :=
  ∀ c ∈ cs, holdsB a c = true

/-- `max(max(t) for t in tuples)` from the source: the largest value appearing
anywhere in `tuples` (tuple elements are nonnegative on validated inputs, so the
fold from 0 agrees with Python's `max`). -/
def max_value (tuples : List (List Nat)) : Nat :=
  (tuples.map (fun t => t.foldl max 0)).foldl max 0

/-- Membership in `possible_values[i]` from the source: value `j` appears at
position `i` of some tuple. -/
def possible_values (tuples : List (List Nat)) (i j : Nat) : Bool :=
  tuples.any (fun t => decide (i < t.length) && (t.getD i 0 == j))

/-- The constraints emitted by `table_optional` into the model, in the source's
emission order, for `n = len(variables)`.  Variable creation
(`model.NewBoolVar`) has no logical content and is represented by the `BRef`
index space. -/
def table_optional (n : Nat) (tuples : List (List Nat)) : List CpConstraint :=
  ((List.range n).flatMap (fun i =>
      ((List.range (max_value tuples + 1)).filter
          (fun j => !(possible_values tuples i j))).map
        (fun j => CpConstraint.boolEqZeroIf (BRef.is_assigned i j) BRef.option)))
  ++ ((List.range n).map (fun i =>
      CpConstraint.sumEqOneIf
        ((List.range (max_value tuples + 1)).map (fun j => BRef.is_assigned i j))
        BRef.option))
  ++ ((List.range n).flatMap (fun i =>
      (List.range (max_value tuples + 1)).map (fun j =>
        CpConstraint.varEqIf i j (BRef.is_assigned i j))))
  ++ ((List.range tuples.length).map (fun k =>
      CpConstraint.boolAndIf
        ((List.range (tuples.getD k []).length).map
          (fun j => BRef.is_assigned j ((tuples.getD k []).getD j 0)))
        (BRef.b k)))
  ++ [CpConstraint.sumEqOneIf ((List.range tuples.length).map (fun k => BRef.b k))
        BRef.option]

/-- An integer decision variable of the engine, seen through the attributes the
validation can observe: its declared domain bounds.  A boolean decision
variable is the special case with domain `[0, 1]`. -/
structure IntVarSpec where
  lo : Int
  hi : Int
deriving DecidableEq, Repr

/-- The check `isinstance(option, cp_model.IntVar)` from the source: any
integer decision variable passes; its domain is not inspected. -/
def option_is_intvar (_opt : IntVarSpec) : Bool := true

/-- The `assert` block of `table_optional`, which runs before the first
`model.NewBoolVar` call: a call is rejected with the model unchanged exactly
when this check fails.  The `isinstance` assertions on `model`, on the
container types and on the elements of `variables` are enforced here by the
Lean types of the parameters; the data-dependent assertions are, in source
order: `len(variables) > 0`, `len(tuples) > 0`, every tuple element `>= 0`,
`len(variables) == len(tuples[0])`, and the `isinstance` check on `option`. -/
def table_optional_checks (vars : List IntVarSpec) (tuples : List (List Int))
    (opt : IntVarSpec) : Bool :=
  decide (0 < vars.length) &&
  decide (0 < tuples.length) &&
  tuples.all (fun t => t.all (fun x => decide (0 ≤ x))) &&
  (vars.length == (tuples.headD []).length) &&
  option_is_intvar opt

example : table_optional_checks [⟨0, 10⟩, ⟨0, 10⟩] [[0, 1], [0]] ⟨0, 1⟩ = true := by decide

example : max_value [[0, 1, 2], [5, 0, 1]] = 5 := by decide

/-! ### Helper lemmas about `boolSum` over a `List.range` -/

lemma boolSum_range_succ_true (f : Nat → Bool) (m : Nat) (hfm : f m = true) :
    boolSum ((List.range (m + 1)).map f) = boolSum ((List.range m).map f) + 1 := by
  simp [boolSum, List.range_succ, hfm]

lemma boolSum_range_succ_false (f : Nat → Bool) (m : Nat) (hfm : f m = false) :
    boolSum ((List.range (m + 1)).map f) = boolSum ((List.range m).map f) := by
  simp [boolSum, List.range_succ, hfm]

lemma boolSum_range_zero_all (f : Nat → Bool) (m : Nat)
    (h : boolSum ((List.range m).map f) = 0) :
    ∀ k, k < m → f k = false := by
  induction m with
  | zero => omega
  | succ m ih =>
    cases hfm : f m with
    | true => rw [boolSum_range_succ_true f m hfm] at h; omega
    | false =>
      rw [boolSum_range_succ_false f m hfm] at h
      intro k hk
      rcases Nat.lt_succ_iff_lt_or_eq.mp hk with h1 | h1
      · exact ih h k h1
      · rw [h1]; exact hfm

lemma boolSum_range_one_mem (f : Nat → Bool) (m : Nat)
    (h : boolSum ((List.range m).map f) = 1) :
    ∃ k, k < m ∧ f k = true := by
  induction m with
  | zero => simp [boolSum] at h
  | succ m ih =>
    cases hfm : f m with
    | true => exact ⟨m, Nat.lt_succ_self m, hfm⟩
    | false =>
      rw [boolSum_range_succ_false f m hfm] at h
      obtain ⟨k, hk, hfk⟩ := ih h
      exact ⟨k, by omega, hfk⟩

lemma boolSum_range_one_unique (f : Nat → Bool) (m : Nat)
    (h : boolSum ((List.range m).map f) = 1) :
    ∀ k1 k2, k1 < m → k2 < m → f k1 = true → f k2 = true → k1 = k2 := by
  induction m with
  | zero => omega
  | succ m ih =>
    intro k1 k2 hk1 hk2 hf1 hf2
    cases hfm : f m with
    | true =>
      rw [boolSum_range_succ_true f m hfm] at h
      have hS : boolSum ((List.range m).map f) = 0 := by omega
      have hall := boolSum_range_zero_all f m hS
      have e1 : k1 = m := by
        rcases Nat.lt_succ_iff_lt_or_eq.mp hk1 with h1 | h1
        · rw [hall k1 h1] at hf1; cases hf1
        · exact h1
      have e2 : k2 = m := by
        rcases Nat.lt_succ_iff_lt_or_eq.mp hk2 with h1 | h1
        · rw [hall k2 h1] at hf2; cases hf2
        · exact h1
      rw [e1, e2]
    | false =>
      rw [boolSum_range_succ_false f m hfm] at h
      have e1 : k1 < m := by
        rcases Nat.lt_succ_iff_lt_or_eq.mp hk1 with h1 | h1
        · exact h1
        · rw [h1, hfm] at hf1; cases hf1
      have e2 : k2 < m := by
        rcases Nat.lt_succ_iff_lt_or_eq.mp hk2 with h1 | h1
        · exact h1
        · rw [h1, hfm] at hf2; cases hf2
      exact ih h k1 k2 e1 e2 hf1 hf2

/-! ### Helper lemmas about `max_value`, `possible_values` and `getD` -/

lemma le_foldl_max (l : List Nat) (b : Nat) : b ≤ l.foldl max b := by
  induction l generalizing b with
  | nil => simp
  | cons x xs ih => exact le_trans (Nat.le_max_left b x) (ih (max b x))

lemma mem_le_foldl_max (l : List Nat) (b : Nat) (x : Nat) (hx : x ∈ l) :
    x ≤ l.foldl max b := by
  induction l generalizing b with
  | nil => cases hx
  | cons y ys ih =>
    rcases List.mem_cons.mp hx with h | h
    · rw [h]; exact le_trans (Nat.le_max_right b y) (le_foldl_max ys (max b y))
    · exact ih (max b y) h

lemma val_le_max_value (tuples : List (List Nat)) (t : List Nat) (ht : t ∈ tuples)
    (x : Nat) (hx : x ∈ t) : x ≤ max_value tuples := by
  unfold max_value
  have h1 : x ≤ t.foldl max 0 := mem_le_foldl_max t 0 x hx
  have h2 : t.foldl max 0 ≤ (tuples.map (fun t => t.foldl max 0)).foldl max 0 :=
    mem_le_foldl_max _ 0 _ (List.mem_map_of_mem _ ht)
  omega

lemma getD_mem_of_lt {α : Type} (l : List α) (d : α) (k : Nat) (hk : k < l.length) :
    l.getD k d ∈ l := by
  rw [List.getD_eq_getElem l d hk]
  exact List.getElem_mem hk

lemma possible_values_getD (tuples : List (List Nat)) (k i : Nat)
    (hk : k < tuples.length) (hi : i < (tuples.getD k []).length) :
    possible_values tuples i ((tuples.getD k []).getD i 0) = true := by
  unfold possible_values
  rw [List.any_eq_true]
  refine ⟨tuples.getD k [], getD_mem_of_lt tuples [] k hk, ?_⟩
  simp only [beq_self_eq_true, Bool.and_true, decide_eq_true_eq]
  exact hi

/-! ### Membership of individual constraints in the emitted list -/

lemma mem_pruning (n : Nat) (tuples : List (List Nat)) (i j : Nat)
    (hi : i < n) (hj : j ≤ max_value tuples)
    (hpv : possible_values tuples i j = false) :
    CpConstraint.boolEqZeroIf (BRef.is_assigned i j) BRef.option ∈
      table_optional n tuples := by
  unfold table_optional
  refine List.mem_append_left _ (List.mem_append_left _ (List.mem_append_left _
    (List.mem_append_left _ ?_)))
  refine List.mem_flatMap.mpr ⟨i, List.mem_range.mpr hi, List.mem_map.mpr ⟨j, ?_, rfl⟩⟩
  exact List.mem_filter.mpr ⟨List.mem_range.mpr (by omega), by rw [hpv]; rfl⟩

lemma mem_row (n : Nat) (tuples : List (List Nat)) (i : Nat) (hi : i < n) :
    CpConstraint.sumEqOneIf
        ((List.range (max_value tuples + 1)).map (fun j => BRef.is_assigned i j))
        BRef.option ∈ table_optional n tuples := by
  unfold table_optional
  refine List.mem_append_left _ (List.mem_append_left _ (List.mem_append_left _
    (List.mem_append_right _ ?_)))
  exact List.mem_map.mpr ⟨i, List.mem_range.mpr hi, rfl⟩

lemma mem_varEq (n : Nat) (tuples : List (List Nat)) (i j : Nat)
    (hi : i < n) (hj : j ≤ max_value tuples) :
    CpConstraint.varEqIf i j (BRef.is_assigned i j) ∈ table_optional n tuples := by
  unfold table_optional
  refine List.mem_append_left _ (List.mem_append_left _ (List.mem_append_right _ ?_))
  exact List.mem_flatMap.mpr ⟨i, List.mem_range.mpr hi,
    List.mem_map.mpr ⟨j, List.mem_range.mpr (by omega), rfl⟩⟩

lemma mem_boolAnd (n : Nat) (tuples : List (List Nat)) (k : Nat)
    (hk : k < tuples.length) :
    CpConstraint.boolAndIf
        ((List.range (tuples.getD k []).length).map
          (fun j => BRef.is_assigned j ((tuples.getD k []).getD j 0)))
        (BRef.b k) ∈ table_optional n tuples := by
  unfold table_optional
  refine List.mem_append_left _ (List.mem_append_right _ ?_)
  exact List.mem_map.mpr ⟨k, List.mem_range.mpr hk, rfl⟩

lemma mem_sumB (n : Nat) (tuples : List (List Nat)) :
    CpConstraint.sumEqOneIf ((List.range tuples.length).map (fun k => BRef.b k))
        BRef.option ∈ table_optional n tuples := by
  unfold table_optional
  exact List.mem_append_right _ (List.mem_singleton.mpr rfl)

/-! ### Consequences of satisfaction -/

/-- Unconditional link (`Add(variables[i] == j).OnlyEnforceIf(is_assigned[i][j])`):
in any satisfying assignment, `is_assigned[i][j]` true forces
`variables[i] = j`, whatever the value of `option`. -/
lemma sat_link (n : Nat) (tuples : List (List Nat)) (a : TOAssign)
    (hsat : Satisfies a (table_optional n tuples)) (i j : Nat)
    (hi : i < n) (hj : j ≤ max_value tuples) (hij : a.is_assigned i j = true) :
    a.vars i = (j : Int) := by
  have h := hsat _ (mem_varEq n tuples i j hi hj)
  simp only [holdsB, evalB, hij, Bool.not_true, Bool.false_or, beq_iff_eq] at h
  exact h

/-- Domain pruning: with `option` true, a value `j` appearing at position `i`
in no tuple has `is_assigned[i][j]` false. -/
lemma sat_prune (n : Nat) (tuples : List (List Nat)) (a : TOAssign)
    (hsat : Satisfies a (table_optional n tuples)) (hopt : a.option = true)
    (i j : Nat) (hi : i < n) (hj : j ≤ max_value tuples)
    (hpv : possible_values tuples i j = false) :
    a.is_assigned i j = false := by
  have h := hsat _ (mem_pruning n tuples i j hi hj hpv)
  simp only [holdsB, evalB, hopt, Bool.not_true, Bool.false_or, Bool.not_eq_true'] at h
  exact h

/-- With `option` true, the constraint `Add(Sum(b) == 1).OnlyEnforceIf(option)`
forces the boolean sum of the per-tuple indicators to be 1. -/
lemma sat_bsum (n : Nat) (tuples : List (List Nat)) (a : TOAssign)
    (hsat : Satisfies a (table_optional n tuples)) (hopt : a.option = true) :
    boolSum ((List.range tuples.length).map (fun k => a.b k)) = 1 := by
  have h := hsat _ (mem_sumB n tuples)
  simp only [holdsB, evalB, hopt, Bool.not_true, Bool.false_or, beq_iff_eq,
    List.map_map] at h
  exact h

/-- `AddBoolAnd(...).OnlyEnforceIf(b[k])`: in any satisfying assignment where
`b[k]` is true, every position of tuple `k` has its indicator true. -/
lemma sat_boolAnd (n : Nat) (tuples : List (List Nat)) (a : TOAssign)
    (hsat : Satisfies a (table_optional n tuples)) (k : Nat)
    (hk : k < tuples.length) (hbk : a.b k = true) :
    ∀ j, j < (tuples.getD k []).length →
      a.is_assigned j ((tuples.getD k []).getD j 0) = true := by
  have h := hsat _ (mem_boolAnd n tuples k hk)
  simp only [holdsB, evalB, hbk, Bool.not_true, Bool.false_or, List.all_eq_true,
    List.mem_map, List.mem_range] at h
  intro j hj
  exact h _ ⟨j, hj, rfl⟩

/-- Main structural lemma: in a satisfying assignment with `option` true, some
tuple index `k` has `b[k]` true, and the values of tuple `k` are realized at
every position, both in `is_assigned` and in `variables`. -/
lemma sat_tuple (n : Nat) (tuples : List (List Nat)) (a : TOAssign)
    (hlen : ∀ t ∈ tuples, t.length = n)
    (hsat : Satisfies a (table_optional n tuples)) (hopt : a.option = true) :
    ∃ k, k < tuples.length ∧ a.b k = true ∧
      ∀ i, i < n → a.is_assigned i ((tuples.getD k []).getD i 0) = true ∧
        a.vars i = (((tuples.getD k []).getD i 0 : Nat) : Int) := by
  obtain ⟨k, hk, hbk⟩ :=
    boolSum_range_one_mem _ _ (sat_bsum n tuples a hsat hopt)
  have hbk : a.b k = true := hbk
  refine ⟨k, hk, hbk, ?_⟩
  have hmemk : tuples.getD k [] ∈ tuples := getD_mem_of_lt tuples [] k hk
  have hlenk : (tuples.getD k []).length = n := hlen _ hmemk
  intro i hi
  have hia := sat_boolAnd n tuples a hsat k hk hbk i (by omega)
  have hvle : (tuples.getD k []).getD i 0 ≤ max_value tuples :=
    val_le_max_value tuples _ hmemk _ (getD_mem_of_lt _ 0 i (by omega))
  exact ⟨hia, sat_link n tuples a hsat i _ hi hvle hia⟩

/-! ### Concrete instances used to instantiate the theorems -/

/-- A satisfying assignment for the one-variable instance with single tuple
`[1]` and `option` true. -/
def aW : TOAssign where
  vars := fun _ => 1
  b := fun k => k == 0
  is_assigned := fun i j => (i == 0) && (j == 1)
  option := true

/-- The tuple set of the demonstration model in `__main__`. -/
def demoTuples : List (List Nat) := [[0, 1, 2, 3, 4], [5, 6, 7, 8, 9]]

/-- The objective `Minimize(Sum(v))` of the demonstration model, over its
5 variables. -/
def demoObj (a : TOAssign) : Int := ((List.range 5).map a.vars).sum

/-- The optimal assignment of the demonstration model: `variables` equal to the
first tuple `(0, 1, 2, 3, 4)`, the first per-tuple indicator set, and the
indicators `is_assigned[i][i]` set. -/
def demoA0 : TOAssign where
  vars := fun i => if i < 5 then (i : Int) else 0
  b := fun k => k == 0
  is_assigned := fun i j => decide (i < 5) && (j == i)
  option := true

/-! ### The claims -/

/-- C1: for every valid input, every assignment satisfying all constraints
emitted by `table_optional` in which `option` is true has `variables` equal,
position-by-position, to some member of `tuples`. -/
theorem C1_option_true_forces_tuple (n : Nat) (tuples : List (List Nat))
    (_hn : 0 < n) (_hne : tuples ≠ []) (hlen : ∀ t ∈ tuples, t.length = n)
    (a : TOAssign) (hsat : Satisfies a (table_optional n tuples))
    (hopt : a.option = true) :
    ∃ t ∈ tuples, ∀ i, i < n → a.vars i = ((t.getD i 0 : Nat) : Int) := by
  obtain ⟨k, hk, _hbk, hall⟩ := sat_tuple n tuples a hlen hsat hopt
  exact ⟨tuples.getD k [], getD_mem_of_lt tuples [] k hk,
    fun i hi => (hall i hi).2⟩

theorem C1_witness :
    ∃ t ∈ [[1]], ∀ i, i < 1 → aW.vars i = ((t.getD i 0 : Nat) : Int) :=
  C1_option_true_forces_tuple 1 [[1]] (by decide) (by decide) (by decide) aW
    (by decide) rfl

/-- C2: the constraints emitted by `table_optional` restrict nothing when
`option` is false: for every assignment of values to `variables` there is an
assignment of the auxiliary booleans making every emitted constraint hold. -/
theorem C2_option_false_no_restriction (n : Nat) (tuples : List (List Nat))
    (vals : Nat → Int) :
    ∃ a : TOAssign, a.option = false ∧ a.vars = vals ∧
      Satisfies a (table_optional n tuples) := by
  refine ⟨⟨vals, fun _ => false, fun _ _ => false, false⟩, rfl, rfl, ?_⟩
  intro c _
  have hg : ∀ g, evalB ⟨vals, fun _ => false, fun _ _ => false, false⟩ g = false := by
    intro g; cases g <;> rfl
  cases c <;> simp [holdsB, hg]

/-- C3 counterexample: a call whose second tuple has length 1 while
`variables` has length 2 passes the whole `assert` block (only `tuples[0]` is
length-checked), and the encoding then emits constraints into the model. -/
theorem C3_counterexample :
    table_optional_checks [⟨0, 10⟩, ⟨0, 10⟩] [[0, 1], [0]] ⟨0, 1⟩ = true ∧
    ([0] : List Int) ∈ ([[0, 1], [0]] : List (List Int)) ∧
    ([0] : List Int).length ≠ 2 ∧
    table_optional 2 [[0, 1], [0]] ≠ [] := by decide

/-- C3 amended: the validation rejects a call exactly when the variable group
is empty, the tuple set is empty, some tuple element is negative, or the FIRST
tuple's length differs from `len(variables)`; lengths of the other tuples are
not checked. -/
theorem C3_amended_first_tuple_only (vars : List IntVarSpec)
    (tuples : List (List Int)) (opt : IntVarSpec) :
    table_optional_checks vars tuples opt = true ↔
      (0 < vars.length ∧ 0 < tuples.length ∧
        (∀ t ∈ tuples, ∀ x ∈ t, 0 ≤ x) ∧
        vars.length = (tuples.headD []).length) := by
  simp [table_optional_checks, option_is_intvar, List.all_eq_true, and_assoc]

theorem C3_amended_witness :
    table_optional_checks [⟨0, 1⟩] [[0]] ⟨0, 1⟩ = true :=
  (C3_amended_first_tuple_only [⟨0, 1⟩] [[0]] ⟨0, 1⟩).mpr (by decide)

/-- C4: with `option` true, exactly one per-tuple indicator `b[k]` is true,
and it corresponds to a tuple whose value at every position `i` is the value
`j` with `is_assigned[i][j]` true, with `variables[i]` equal to it. -/
theorem C4_exactly_one_tuple_indicator (n : Nat) (tuples : List (List Nat))
    (_hn : 0 < n) (_hne : tuples ≠ []) (hlen : ∀ t ∈ tuples, t.length = n)
    (a : TOAssign) (hsat : Satisfies a (table_optional n tuples))
    (hopt : a.option = true) :
    ∃ k, k < tuples.length ∧ a.b k = true ∧
      (∀ m, m < tuples.length → a.b m = true → m = k) ∧
      ∀ i, i < n →
        a.is_assigned i ((tuples.getD k []).getD i 0) = true ∧
        (∀ j, j ≤ max_value tuples → a.is_assigned i j = true →
          j = (tuples.getD k []).getD i 0) ∧
        a.vars i = (((tuples.getD k []).getD i 0 : Nat) : Int) := by
  obtain ⟨k, hk, hbk, hall⟩ := sat_tuple n tuples a hlen hsat hopt
  have huniq := boolSum_range_one_unique _ _ (sat_bsum n tuples a hsat hopt)
  refine ⟨k, hk, hbk, fun m hm hbm => huniq m k hm hk hbm hbk, ?_⟩
  intro i hi
  obtain ⟨hia, hva⟩ := hall i hi
  refine ⟨hia, ?_, hva⟩
  intro j hj hij
  have h1 := sat_link n tuples a hsat i j hi hj hij
  have h2 : ((j : Nat) : Int) = (((tuples.getD k []).getD i 0 : Nat) : Int) := by
    rw [← h1]; exact hva
  exact_mod_cast h2

theorem C4_witness :
    ∃ k, k < ([[1]] : List (List Nat)).length ∧ aW.b k = true ∧
      (∀ m, m < ([[1]] : List (List Nat)).length → aW.b m = true → m = k) ∧
      ∀ i, i < 1 →
        aW.is_assigned i ((([[1]] : List (List Nat)).getD k []).getD i 0) = true ∧
        (∀ j, j ≤ max_value [[1]] → aW.is_assigned i j = true →
          j = (([[1]] : List (List Nat)).getD k []).getD i 0) ∧
        aW.vars i = (((([[1]] : List (List Nat)).getD k []).getD i 0 : Nat) : Int) :=
  C4_exactly_one_tuple_indicator 1 [[1]] (by decide) (by decide) (by decide) aW
    (by decide) rfl

/-- C5: with `option` true, a value `j ≤ max_value` appearing at position `i`
in no tuple is excluded: `variables[i] ≠ j` and `is_assigned[i][j]` is false in
every satisfying assignment. -/
theorem C5_domain_pruning (n : Nat) (tuples : List (List Nat))
    (_hn : 0 < n) (_hne : tuples ≠ []) (hlen : ∀ t ∈ tuples, t.length = n)
    (i j : Nat) (hi : i < n) (hj : j ≤ max_value tuples)
    (hpv : possible_values tuples i j = false)
    (a : TOAssign) (hsat : Satisfies a (table_optional n tuples))
    (hopt : a.option = true) :
    a.vars i ≠ (j : Int) ∧ a.is_assigned i j = false := by
  constructor
  · obtain ⟨k, hk, _hbk, hall⟩ := sat_tuple n tuples a hlen hsat hopt
    obtain ⟨_hia, hva⟩ := hall i hi
    intro hcontra
    have htv : possible_values tuples i ((tuples.getD k []).getD i 0) = true := by
      apply possible_values_getD tuples k i hk
      rw [hlen _ (getD_mem_of_lt tuples [] k hk)]
      exact hi
    have hcast : ((j : Nat) : Int) = (((tuples.getD k []).getD i 0 : Nat) : Int) := by
      rw [← hcontra]; exact hva
    have hj_eq : j = (tuples.getD k []).getD i 0 := by exact_mod_cast hcast
    rw [hj_eq, htv] at hpv
    simp at hpv
  · exact sat_prune n tuples a hsat hopt i j hi hj hpv

theorem C5_witness :
    aW.vars 0 ≠ ((0 : Nat) : Int) ∧ aW.is_assigned 0 0 = false :=
  C5_domain_pruning 1 [[1]] (by decide) (by decide) (by decide) 0 0 (by decide)
    (by decide) (by decide) aW (by decide) rfl

/-- C6: the link `is_assigned[i][j] = true → variables[i] = j` holds in every
satisfying assignment, whatever the value of `option`. -/
theorem C6_link_unconditional (n : Nat) (tuples : List (List Nat))
    (_hn : 0 < n) (_hne : tuples ≠ []) (_hlen : ∀ t ∈ tuples, t.length = n)
    (i j : Nat) (hi : i < n) (hj : j ≤ max_value tuples)
    (a : TOAssign) (hsat : Satisfies a (table_optional n tuples))
    (hij : a.is_assigned i j = true) :
    a.vars i = (j : Int) :=
  sat_link n tuples a hsat i j hi hj hij

theorem C6_witness : aW.vars 0 = ((1 : Nat) : Int) :=
  C6_link_unconditional 1 [[1]] (by decide) (by decide) (by decide) 0 1
    (by decide) (by decide) aW (by decide) rfl

/-- C7: a call with an empty variable group, an empty tuple set, or a negative
tuple element fails the `assert` block (which runs before any variable or
constraint is added to the model). -/
theorem C7_rejects_empty_and_negative (vars : List IntVarSpec)
    (tuples : List (List Int)) (opt : IntVarSpec)
    (h : vars = [] ∨ tuples = [] ∨ ∃ t ∈ tuples, ∃ x ∈ t, x < 0) :
    table_optional_checks vars tuples opt = false := by
  rcases h with h | h | ⟨t, ht, x, hx, hneg⟩
  · subst h; simp [table_optional_checks]
  · subst h; simp [table_optional_checks]
  · have hfalse : tuples.all (fun t => t.all (fun x => decide (0 ≤ x))) = false := by
      cases hall : tuples.all (fun t => t.all (fun x => decide (0 ≤ x))) with
      | false => rfl
      | true =>
        have h1 := List.all_eq_true.mp hall t ht
        have h2 := List.all_eq_true.mp h1 x hx
        simp at h2
        omega
    simp [table_optional_checks, hfalse]

theorem C7_witness : table_optional_checks [] [[0]] ⟨0, 1⟩ = false :=
  C7_rejects_empty_and_negative [] [[0]] ⟨0, 1⟩ (Or.inl rfl)

/-- C8: in the demonstration model (5 variables with domain `[0, 10]`, tuples
`[(0,1,2,3,4), (5,6,7,8,9)]`, `option` fixed true), the minimum of the sum of
the variables subject to the emitted constraints is 10, attained only with
`variables = (0, 1, 2, 3, 4)`. -/
theorem C8_demo_optimum :
    (∃ a : TOAssign, Satisfies a (table_optional 5 demoTuples) ∧
      a.option = true ∧ (∀ i, i < 5 → 0 ≤ a.vars i ∧ a.vars i ≤ 10) ∧
      demoObj a = 10) ∧
    (∀ a : TOAssign, Satisfies a (table_optional 5 demoTuples) →
      a.option = true → (∀ i, i < 5 → 0 ≤ a.vars i ∧ a.vars i ≤ 10) →
      10 ≤ demoObj a ∧
        (demoObj a = 10 → ∀ i, i < 5 →
          a.vars i = (((demoTuples.getD 0 []).getD i 0 : Nat) : Int))) := by
  constructor
  · exact ⟨demoA0, by decide, rfl, by decide, by decide⟩
  · intro a hsat hopt _hdom
    obtain ⟨k, hk, _hbk, hall⟩ := sat_tuple 5 demoTuples a (by decide) hsat hopt
    have hrange : List.range 5 = [0, 1, 2, 3, 4] := by rfl
    have hobj : demoObj a =
        a.vars 0 + a.vars 1 + a.vars 2 + a.vars 3 + a.vars 4 := by
      simp only [demoObj, hrange, List.map_cons, List.map_nil, List.sum_cons,
        List.sum_nil]
      omega
    have h0 := (hall 0 (by omega)).2
    have h1 := (hall 1 (by omega)).2
    have h2 := (hall 2 (by omega)).2
    have h3 := (hall 3 (by omega)).2
    have h4 := (hall 4 (by omega)).2
    have hk2 : k = 0 ∨ k = 1 := by
      have hlen2 : demoTuples.length = 2 := rfl
      omega
    rcases hk2 with hk0 | hk1
    · subst hk0
      norm_num [demoTuples] at h0 h1 h2 h3 h4
      constructor
      · rw [hobj, h0, h1, h2, h3, h4]; norm_num
      · intro _ i hi
        interval_cases i <;> norm_num [demoTuples] <;> assumption
    · subst hk1
      norm_num [demoTuples] at h0 h1 h2 h3 h4
      constructor
      · rw [hobj, h0, h1, h2, h3, h4]; norm_num
      · intro heq
        rw [hobj, h0, h1, h2, h3, h4] at heq
        norm_num at heq

theorem C8_witness : 10 ≤ demoObj demoA0 :=
  (C8_demo_optimum.2 demoA0 (by decide) rfl (by decide)).1

/-- C9: in every satisfying assignment, whatever the value of `option`, at most
one indicator `is_assigned[i][j]` is true per position `i`: two true indicators
would force `variables[i]` to equal two different values. -/
theorem C9_at_most_one_indicator_per_position (n : Nat)
    (tuples : List (List Nat)) (i : Nat) (hi : i < n) (j1 j2 : Nat)
    (hj1 : j1 ≤ max_value tuples) (hj2 : j2 ≤ max_value tuples)
    (a : TOAssign) (hsat : Satisfies a (table_optional n tuples))
    (h1 : a.is_assigned i j1 = true) (h2 : a.is_assigned i j2 = true) :
    j1 = j2 := by
  have e1 := sat_link n tuples a hsat i j1 hi hj1 h1
  have e2 := sat_link n tuples a hsat i j2 hi hj2 h2
  have hcast : ((j1 : Nat) : Int) = ((j2 : Nat) : Int) := by rw [← e1, ← e2]
  exact_mod_cast hcast

theorem C9_witness : (1 : Nat) = 1 :=
  C9_at_most_one_indicator_per_position 1 [[1]] 0 (by decide) 1 1 (by decide)
    (by decide) aW (by decide) rfl rfl

/-- C10: the validation's check on `option` is only `isinstance` against the
engine's integer-decision-variable class: an `option` with any domain, not only
the boolean domain `[0, 1]`, passes the `assert` block. -/
theorem C10_option_any_intvar (vars : List IntVarSpec)
    (tuples : List (List Int)) (opt : IntVarSpec)
    (h : table_optional_checks vars tuples ⟨0, 1⟩ = true) :
    table_optional_checks vars tuples opt = true := by
  simpa [table_optional_checks, option_is_intvar] using h

theorem C10_witness :
    table_optional_checks (List.replicate 5 ⟨0, 10⟩)
      [[0, 1, 2, 3, 4], [5, 6, 7, 8, 9]] ⟨0, 10⟩ = true :=
  C10_option_any_intvar _ _ ⟨0, 10⟩ (by decide)
